import Mathlib

/-!
# CLI-Linux: `kill` and `volumes`

A shallow embedding of `src/main.go` (`ActionVolumes`, `KillAction`, `killProcess`,
`isEqualProcessName`) together with the properties claimed for it.

Conventions of the embedding.

* A Go `string` is a sequence of bytes: `GoString := List Nat`, every element below 256.
* The operating system and the libraries that reach it (`gopsutil/process`,
  `gopsutil/disk`, `encoding/json`) are parameters: a record `OS σ` of transition functions
  over an arbitrary state type `σ`.  Every call the program makes is recorded, with the
  result it got, in a list of `Event`s, so that "which calls were made, in which order" is
  a property of the value the embedded function returns.
* `runtime.GOOS` is a parameter `goos`.
-/

namespace CLILinux

/-! ## Go strings -/

/-- A Go string: its bytes. -/
abbrev GoString := List Nat

/-- The bytes of an ASCII string literal of the source. -/
def lit (s : String) : GoString := s.data.map Char.toNat

/-- Go `strings.Join(elems, sep)`. -/
def Join : List GoString → GoString → GoString
  | [], _ => []
  | [e], _ => e
  | e :: e2 :: es, sep => e ++ sep ++ Join (e2 :: es) sep

/-! ## `unicode/utf8` and `strings.EqualFold` (Go standard library) -/

/-- Go `utf8.RuneSelf`: bytes below it are single-byte code points. -/
def RuneSelf : Nat := 0x80

/-- Go `utf8.RuneError`, U+FFFD: what every ill-formed byte decodes to. -/
def RuneError : Nat := 0xFFFD

/-- Go `utf8.first`: for a first byte, `0xF0` (ASCII), `0xF1` (never a first byte), or
the size of the sequence in the low three bits and the index of the accepted range of the
second byte in the high four. -/
def first (b : Nat) : Nat :=
  if b < 0x80 then 0xF0
  else if b < 0xC2 then 0xF1
  else if b < 0xE0 then 0x02
  else if b = 0xE0 then 0x13
  else if b < 0xED then 0x03
  else if b = 0xED then 0x23
  else if b < 0xF0 then 0x03
  else if b = 0xF0 then 0x34
  else if b < 0xF4 then 0x04
  else if b = 0xF4 then 0x44
  else 0xF1

/-- Go `utf8.acceptRanges`: the accepted range `(lo, hi)` of the second byte. -/
def acceptRanges (i : Nat) : Nat × Nat :=
  match i with
  | 0 => (0x80, 0xBF)
  | 1 => (0xA0, 0xBF)
  | 2 => (0x80, 0x9F)
  | 3 => (0x90, 0xBF)
  | 4 => (0x80, 0x8F)
  | _ => (0, 0)

/-- Go `utf8.DecodeRuneInString`: the first code point of `s` and its width in bytes;
`(RuneError, 0)` for the empty string and `(RuneError, 1)` for an ill-formed sequence. -/
def DecodeRuneInString (s : GoString) : Nat × Nat :=
  match s with
  | [] => (RuneError, 0)
  | s0 :: rest =>
    let x := first s0
    if x ≥ 0xF0 then
      (if x = 0xF0 then s0 else RuneError, 1)
    else
      let sz := x % 8
      let accept := acceptRanges (x / 16)
      if s.length < sz then (RuneError, 1)
      else
        match rest with
        | [] => (RuneError, 1)
        | s1 :: rest1 =>
          if s1 < accept.1 ∨ accept.2 < s1 then (RuneError, 1)
          else if sz ≤ 2 then ((s0 % 32) * 64 + s1 % 64, 2)
          else
            match rest1 with
            | [] => (RuneError, 1)
            | s2 :: rest2 =>
              if s2 < 0x80 ∨ 0xBF < s2 then (RuneError, 1)
              else if sz ≤ 3 then ((s0 % 16) * 4096 + (s1 % 64) * 64 + s2 % 64, 3)
              else
                match rest2 with
                | [] => (RuneError, 1)
                | s3 :: _ =>
                  if s3 < 0x80 ∨ 0xBF < s3 then (RuneError, 1)
                  else ((s0 % 8) * 262144 + (s1 % 64) * 4096 + (s2 % 64) * 64 + s3 % 64, 4)

/-- The step "extract first rune" of `strings.EqualFold`:
`if s[0] < utf8.RuneSelf { r, s = rune(s[0]), s[1:] } else { r, size := DecodeRuneInString(s); s = s[size:] }`. -/
def extractRune (s : GoString) : Nat × GoString :=
  match s with
  | [] => (RuneError, [])
  | c :: rest =>
    if c < RuneSelf then (c, rest)
    else ((DecodeRuneInString s).1, s.drop (DecodeRuneInString s).2)

/-- The comparison of two code points in the body of `strings.EqualFold`: equal, or an
ASCII upper/lower pair, or (when the larger one is not ASCII) equivalent under Unicode
simple case folding.  The last test is `unicode.SimpleFold` iterated over the orbit of the
smaller code point; it is driven by the Unicode case tables and is the parameter
`simpleFoldEq sr tr` (called with `sr < tr` and `RuneSelf ≤ tr`). -/
def runeEqualFold (simpleFoldEq : Nat → Nat → Bool) (sr tr : Nat) : Bool :=
  if tr = sr then true
  else
    let lo := if tr < sr then tr else sr
    let hi := if tr < sr then sr else tr
    if hi < RuneSelf then
      decide (0x41 ≤ lo ∧ lo ≤ 0x5A ∧ hi = lo + 0x61 - 0x41)
    else simpleFoldEq lo hi

/-- The loop of Go `strings.EqualFold`
(`for s != "" && t != "" { ... }; return s == t`), every iteration consuming at least one
byte of each string; `fuel` bounds the number of iterations. -/
def equalFoldLoop (simpleFoldEq : Nat → Nat → Bool) : Nat → GoString → GoString → Bool
  | 0, s, t => decide (s = t)
  | fuel + 1, s, t =>
    if s ≠ [] ∧ t ≠ [] then
      if runeEqualFold simpleFoldEq (extractRune s).1 (extractRune t).1 then
        equalFoldLoop simpleFoldEq fuel (extractRune s).2 (extractRune t).2
      else false
    else decide (s = t)

/-- Go `strings.EqualFold(s, t)`: the loop never runs more than `len(s)` times. -/
def EqualFold (simpleFoldEq : Nat → Nat → Bool) (s t : GoString) : Bool :=
  equalFoldLoop simpleFoldEq s.length s t

/-! ## `isEqualProcessName` (main.go, lines 140-145) -/

/-- `isEqualProcessName(proc1, proc2)`; `goos` is `runtime.GOOS`. -/
def isEqualProcessName (goos : String) (simpleFoldEq : Nat → Nat → Bool)
    (proc1 proc2 : GoString) : Bool :=
  if goos = "linux" then
    decide (proc1 = proc2)
  else
    EqualFold simpleFoldEq proc1 proc2

/-! ## Reading a string as text -/

/-- The code points Go reads from a string (`for _, r := range s`): every ill-formed byte
yields `RuneError` and is one byte wide.  `fuel` bounds the number of code points. -/
def runesAux : Nat → GoString → List Nat
  | 0, _ => []
  | _ + 1, [] => []
  | fuel + 1, c :: rest =>
    (extractRune (c :: rest)).1 :: runesAux fuel (extractRune (c :: rest)).2

/-- The code points of `s`, as Go reads them. -/
def runes (s : GoString) : List Nat := runesAux s.length s

/-- Two sequences of code points of the same length that `strings.EqualFold` accepts
position by position. -/
def runesEqualFold (simpleFoldEq : Nat → Nat → Bool) : List Nat → List Nat → Bool
  | [], [] => true
  | r :: rs, t :: ts => runeEqualFold simpleFoldEq r t && runesEqualFold simpleFoldEq rs ts
  | _, _ => false

/-- A unit of text in a byte string: a well-formed code point, or a byte that is not part
of one. -/
inductive TextUnit where
  | rune (r : Nat)
  | raw (b : Nat)
deriving DecidableEq, Repr

/-- The string starts with a well-formed UTF-8 sequence: `DecodeRuneInString` does not
answer `(RuneError, 1)`. -/
def wellFormedAt (s : GoString) : Bool :=
  decide (DecodeRuneInString s ≠ (RuneError, 1))

/-- The text units of a string: code points where the bytes are well-formed UTF-8, the
bytes themselves where they are not. -/
def textUnitsAux : Nat → GoString → List TextUnit
  | 0, _ => []
  | _ + 1, [] => []
  | fuel + 1, c :: rest =>
    if wellFormedAt (c :: rest) then
      TextUnit.rune (DecodeRuneInString (c :: rest)).1 ::
        textUnitsAux fuel ((c :: rest).drop (DecodeRuneInString (c :: rest)).2)
    else TextUnit.raw c :: textUnitsAux fuel rest

/-- The text units of `s`. -/
def textUnits (s : GoString) : List TextUnit := textUnitsAux s.length s

/-- Go `utf8.ValidString(s)`: the string is well-formed UTF-8 throughout. -/
def ValidString (s : GoString) : Bool :=
  (textUnits s).all (fun u => match u with
    | TextUnit.rune _ => true
    | TextUnit.raw _ => false)

/-- Two code points are the same letter up to case: equal, or an ASCII letter in its
upper and lower case, or (when they are not both ASCII) equivalent under Unicode simple
case folding, the relation `simpleFoldEq` on a smaller and a larger code point. -/
def sameLetterUpToCase (simpleFoldEq : Nat → Nat → Bool) (r t : Nat) : Bool :=
  decide (r = t)
    || decide (0x41 ≤ r ∧ r ≤ 0x5A ∧ t = r + 0x20)
    || decide (0x41 ≤ t ∧ t ≤ 0x5A ∧ r = t + 0x20)
    || (decide (¬ (r < 0x80 ∧ t < 0x80)) && simpleFoldEq (min r t) (max r t))

/-- Two text units that are equal once letter case is ignored: the same letter up to
case, or the same byte. -/
def sameUnitUpToCase (simpleFoldEq : Nat → Nat → Bool) : TextUnit → TextUnit → Bool
  | TextUnit.rune r, TextUnit.rune t => sameLetterUpToCase simpleFoldEq r t
  | TextUnit.raw x, TextUnit.raw y => decide (x = y)
  | _, _ => false

/-- Two sequences of text units of the same length, equal position by position once
letter case is ignored. -/
def sameUnitsUpToCase (simpleFoldEq : Nat → Nat → Bool) : List TextUnit → List TextUnit → Bool
  | [], [] => true
  | u :: us, v :: vs => sameUnitUpToCase simpleFoldEq u v && sameUnitsUpToCase simpleFoldEq us vs
  | _, _ => false

/-- The reading of "a and b differ only in letter case (they are equal once letter-case
distinctions are ignored)": the two strings have the same text units up to the case of
letters. -/
def differOnlyInLetterCase (simpleFoldEq : Nat → Nat → Bool) (a b : GoString) : Bool :=
  sameUnitsUpToCase simpleFoldEq (textUnits a) (textUnits b)

/-- The lower-case form of an ASCII byte: `A`-`Z` go to `a`-`z`. -/
def asciiLower (c : Nat) : Nat := if 0x41 ≤ c ∧ c ≤ 0x5A then c + 0x20 else c

/-- Every byte of the string is ASCII. -/
def isASCII (s : GoString) : Bool := s.all (fun c => decide (c < RuneSelf))

/-! ## Errors, processes, partitions -/

/-- A Go `error` value: one a library returned, or one made by `errors.New`. -/
inductive GoError where
  | lib (msg : GoString)
  | new (msg : GoString)
deriving DecidableEq, Repr

/-- Go `err.Error()`: the message of an error. -/
def GoError.Error : GoError → GoString
  | .lib msg => msg
  | .new msg => msg

/-- Go `errors.New(text)`. -/
def errors.New (text : GoString) : GoError := GoError.new text

/-- A `*process.Process` handle of gopsutil. -/
structure Process where
  Pid : Int
deriving DecidableEq, Repr

/-- gopsutil `disk.PartitionStat`. -/
structure PartitionStat where
  Device : GoString
  Mountpoint : GoString
  Fstype : GoString
  Opts : GoString
deriving DecidableEq, Repr

/-- gopsutil `disk.UsageStat`; the `float64` fields are kept as their IEEE-754 bit
patterns, which the program only copies. -/
structure UsageStat where
  Path : GoString
  Fstype : GoString
  Total : Nat
  Free : Nat
  Used : Nat
  UsedPercent : Nat
  InodesTotal : Nat
  InodesUsed : Nat
  InodesFree : Nat
  InodesUsedPercent : Nat
deriving DecidableEq, Repr

/-- `Volume` (main.go, lines 18-25). -/
structure Volume where
  Name : GoString
  Total : Nat
  Used : Nat
  Available : Nat
  UsePercent : Nat
  Mount : GoString
deriving DecidableEq, Repr

/-- The result of a library call that returns `(value, error)`. -/
inductive Res (α : Type) where
  | ok (v : α)
  | err (e : GoError)
deriving DecidableEq, Repr

/-- One interaction of the program with the outside, with the result it got. -/
inductive Event where
  | NewProcess (pid : Int) (r : Res Process)
  | Processes (r : Res (List Process))
  | Name (p : Process) (r : Res GoString)
  | Kill (p : Process) (r : Option GoError)
  | Partitions (all : Bool) (r : Res (List PartitionStat))
  | Usage (path : GoString) (r : Res UsageStat)
  | Println (line : GoString)
deriving DecidableEq, Repr

/-- The operating system as the program reaches it, over a state `σ` that every call may
change.  `Name` returns the empty string together with any error (as gopsutil does on
every platform), so `Res` loses nothing of `name, _ := p.Name()`.  `MarshalIndent` is
`json.MarshalIndent(vols, "", "\t")`, which reads no state. -/
structure OS (σ : Type) where
  NewProcess : Int → σ → Res Process × σ
  Processes : σ → Res (List Process) × σ
  Name : Process → σ → Res GoString × σ
  Kill : Process → σ → Option GoError × σ
  Partitions : Bool → σ → Res (List PartitionStat) × σ
  Usage : GoString → σ → Res UsageStat × σ
  MarshalIndent : List Volume → Res GoString

/-- What a function of the program yields: its return value, the interactions it had, in
order, and the state it leaves the operating system in. -/
structure Run (σ α : Type) where
  ret : α
  events : List Event
  os : σ

/-- The run `r`, after the interactions `es`. -/
def Run.after {σ α : Type} (es : List Event) (r : Run σ α) : Run σ α :=
  { r with events := es ++ r.events }

/-! ## `*cli.Context` -/

/-- The part of a `*cli.Context` the handlers read: the positional arguments and the two
flags of `kill`, `none` for a flag that is not set. -/
structure Context where
  args : List GoString
  id : Option Nat
  name : Option GoString
deriving DecidableEq, Repr

/-- `c.Args()`. -/
def Context.Args (c : Context) : List GoString := c.args

/-- `c.IsSet(flag)`. -/
def Context.IsSet (c : Context) (flag : String) : Bool :=
  if flag = "id" then c.id.isSome
  else if flag = "name" then c.name.isSome
  else false

/-- `c.Uint("id")`: the value of the flag, `0` when it is not set. -/
def Context.Uint (c : Context) : Nat := c.id.getD 0

/-- `c.String("name")`: the value of the flag, `""` when it is not set. -/
def Context.String (c : Context) : GoString := c.name.getD []

/-- Go `int32(x)` for an unsigned `x`: the low 32 bits, read as two's complement. -/
def int32 (x : Nat) : Int :=
  if x % 2 ^ 32 < 2 ^ 31 then (x % 2 ^ 32 : Nat) else (x % 2 ^ 32 : Nat) - 2 ^ 32

/-! ## `ActionVolumes` (main.go, lines 28-63) -/

/-- The loop `for _, stat := range stats` of `ActionVolumes`; `vols` is the slice built so
far. -/
def volumesLoop {σ : Type} (os : OS σ) : List PartitionStat → List Volume → σ → Run σ (List Volume)
  | [], vols, s => ⟨vols, [], s⟩
  | stat :: stats, vols, s =>
    match os.Usage stat.Mountpoint s with
    | (Res.err e, s1) =>
      (volumesLoop os stats vols s1).after [Event.Usage stat.Mountpoint (Res.err e)]
    | (Res.ok usage, s1) =>
      let vol : Volume :=
        { Name := stat.Device
          Total := usage.Total
          Used := usage.Used
          Available := usage.Free
          UsePercent := usage.UsedPercent
          Mount := [] }
      (volumesLoop os stats (vols ++ [vol]) s1).after [Event.Usage stat.Mountpoint (Res.ok usage)]

/-- `ActionVolumes(c)`; the return value is the Go `error`, `none` for `nil`. -/
def ActionVolumes {σ : Type} (os : OS σ) (_c : Context) (s : σ) : Run σ (Option GoError) :=
  match os.Partitions true s with
  | (Res.err err, s1) => ⟨some err, [Event.Partitions true (Res.err err)], s1⟩
  | (Res.ok stats, s1) =>
    let loop := volumesLoop os stats [] s1
    match os.MarshalIndent loop.ret with
    | Res.err err =>
      ⟨some err, Event.Partitions true (Res.ok stats) :: loop.events, loop.os⟩
    | Res.ok volsByteArr =>
      ⟨none, Event.Partitions true (Res.ok stats) :: (loop.events ++ [Event.Println volsByteArr]),
        loop.os⟩

/-! ## `killProcess` (main.go, lines 95-138) and `KillAction` (lines 66-84) -/

/-- The loop `for _, p := range processes` of `killProcess`; `errs` and `found` are the
variables of the same names. -/
def killLoop {σ : Type} (goos : String) (simpleFoldEq : Nat → Nat → Bool) (os : OS σ)
    (target : GoString) : List Process → List GoString → Bool → σ → Run σ (List GoString × Bool)
  | [], errs, found, s => ⟨(errs, found), [], s⟩
  | p :: ps, errs, found, s =>
    match os.Name p s with
    | (r, s1) =>
      let name : GoString := match r with
        | Res.ok v => v
        | Res.err _ => []
      if name = [] then
        (killLoop goos simpleFoldEq os target ps errs found s1).after [Event.Name p r]
      else if isEqualProcessName goos simpleFoldEq name target then
        match os.Kill p s1 with
        | (some err, s2) =>
          (killLoop goos simpleFoldEq os target ps (errs ++ [err.Error]) true s2).after
            [Event.Name p r, Event.Kill p (some err)]
        | (none, s2) =>
          (killLoop goos simpleFoldEq os target ps errs true s2).after
            [Event.Name p r, Event.Kill p none]
      else
        (killLoop goos simpleFoldEq os target ps errs found s1).after [Event.Name p r]

/-- `killProcess(c)`. -/
def killProcess {σ : Type} (goos : String) (simpleFoldEq : Nat → Nat → Bool) (os : OS σ)
    (c : Context) (s : σ) : Run σ (Option GoError) :=
  if c.IsSet "id" then
    match os.NewProcess (int32 c.Uint) s with
    | (Res.err err, s1) => ⟨some err, [Event.NewProcess (int32 c.Uint) (Res.err err)], s1⟩
    | (Res.ok proc, s1) =>
      match os.Kill proc s1 with
      | (k, s2) => ⟨k, [Event.NewProcess (int32 c.Uint) (Res.ok proc), Event.Kill proc k], s2⟩
  else
    match os.Processes s with
    | (Res.err err, s1) => ⟨some err, [Event.Processes (Res.err err)], s1⟩
    | (Res.ok processes, s1) =>
      let loop := killLoop goos simpleFoldEq os c.String processes [] false s1
      let ret : Option GoError :=
        if !loop.ret.2 then some (errors.New (lit "process not found"))
        else if loop.ret.1.length = 0 then none
        else some (errors.New (Join loop.ret.1 (lit "\n")))
      ⟨ret, Event.Processes (Res.ok processes) :: loop.events, loop.os⟩

/-- `KillAction(c)`. -/
def KillAction {σ : Type} (goos : String) (simpleFoldEq : Nat → Nat → Bool) (os : OS σ)
    (c : Context) (s : σ) : Run σ (Option GoError) :=
  if c.Args.length > 0 then
    ⟨some (errors.New (lit "no arguments is expected, use flags")), [], s⟩
  else if c.IsSet "id" && c.IsSet "name" then
    ⟨some (errors.New (lit "either pid or name flag must be provided")), [], s⟩
  else if !c.IsSet "id" && c.String = [] then
    ⟨some (errors.New (lit "name flag cannot be empty")), [], s⟩
  else
    match killProcess goos simpleFoldEq os c s with
    | ⟨some err, es, s1⟩ => ⟨some err, es, s1⟩
    | ⟨none, es, s1⟩ => ⟨none, es ++ [Event.Println (lit "Process killed successfully.")], s1⟩

/-! ## Reading a run -/

/-- The names read in a run: each process asked for its name, with the answer, in order. -/
def namesRead (es : List Event) : List (Process × Res GoString) :=
  es.filterMap (fun e => match e with
    | Event.Name p r => some (p, r)
    | _ => none)

/-- The termination requests of a run: each process asked to terminate, with the answer
(`none` for success), in order. -/
def terminations (es : List Event) : List (Process × Option GoError) :=
  es.filterMap (fun e => match e with
    | Event.Kill p k => some (p, k)
    | _ => none)

/-- The processes whose termination was requested, in the order of the requests. -/
def killed (es : List Event) : List Process := (terminations es).map Prod.fst

/-- The messages of the termination requests that failed, in order. -/
def failures (es : List Event) : List GoString :=
  (terminations es).filterMap (fun pk => pk.2.map GoError.Error)

/-- A name read from a process matches the target: it could be read, is not empty and
equals the target under `isEqualProcessName`. -/
def nameMatches (goos : String) (simpleFoldEq : Nat → Nat → Bool) (target : GoString) :
    Res GoString → Bool
  | Res.ok v => decide (v ≠ []) && isEqualProcessName goos simpleFoldEq v target
  | Res.err _ => false

/-- The processes whose name, as read in the run, matches the target, in order. -/
def matched (goos : String) (simpleFoldEq : Nat → Nat → Bool) (target : GoString)
    (es : List Event) : List Process :=
  ((namesRead es).filter (fun pr => nameMatches goos simpleFoldEq target pr.2)).map Prod.fst

/-- The lines written to standard output, in order. -/
def printed (es : List Event) : List GoString :=
  es.filterMap (fun e => match e with
    | Event.Println line => some line
    | _ => none)

/-- The process lookups (`process.NewProcess`) and enumerations (`process.Processes`) of a
run. -/
def lookups (es : List Event) : List Event :=
  es.filter (fun e => match e with
    | Event.NewProcess _ _ => true
    | Event.Processes _ => true
    | _ => false)

/-- The usage queries of a run: the mount point asked about, with the answer, in order. -/
def usageQueries (es : List Event) : List (GoString × Res UsageStat) :=
  es.filterMap (fun e => match e with
    | Event.Usage path r => some (path, r)
    | _ => none)

/-- The volume record `ActionVolumes` builds from a partition and its usage. -/
def volumeOf (stat : PartitionStat) (usage : UsageStat) : Volume :=
  { Name := stat.Device
    Total := usage.Total
    Used := usage.Used
    Available := usage.Free
    UsePercent := usage.UsedPercent
    Mount := [] }

/-- The records of the partitions whose usage query succeeded, given the partitions and
the answers to their queries, in order. -/
def volumesOf : List PartitionStat → List (Res UsageStat) → List Volume
  | stat :: stats, Res.ok usage :: rs => volumeOf stat usage :: volumesOf stats rs
  | _ :: stats, Res.err _ :: rs => volumesOf stats rs
  | _, _ => []

/-- The usage queries that succeeded. -/
def succeeded (rs : List (Res UsageStat)) : List (Res UsageStat) :=
  rs.filter (fun r => match r with
    | Res.ok _ => true
    | Res.err _ => false)

/-- The usage queries that failed. -/
def failed (rs : List (Res UsageStat)) : List (Res UsageStat) :=
  rs.filter (fun r => match r with
    | Res.ok _ => false
    | Res.err _ => true)

/-- The outcome of a kill by name, read off the termination requests of the run: "process
not found" when none was made, success when none failed, and otherwise one error whose
message is the failure messages joined by newlines. -/
def byNameOutcome (es : List Event) : Option GoError :=
  if killed es = [] then some (errors.New (lit "process not found"))
  else if failures es = [] then none
  else some (errors.New (Join (failures es) (lit "\n")))

/-- A case table in which no code point beyond ASCII has a case variant; enough to run
the program on ASCII names. -/
def asciiOnlyFold : Nat → Nat → Bool := fun _ _ => false

/-- The events are what the operating system really answered: replayed from the state
`s`, every recorded call gets from `os` the recorded result.  The value is the state the
operating system is left in, `none` when some recorded result is not the one `os` gives.
Printing asks nothing of the operating system. -/
def replay {σ : Type} (os : OS σ) : σ → List Event → Option σ
  | s, [] => some s
  | s, Event.NewProcess pid r :: es =>
    if (os.NewProcess pid s).1 = r then replay os (os.NewProcess pid s).2 es else none
  | s, Event.Processes r :: es =>
    if (os.Processes s).1 = r then replay os (os.Processes s).2 es else none
  | s, Event.Name p r :: es =>
    if (os.Name p s).1 = r then replay os (os.Name p s).2 es else none
  | s, Event.Kill p k :: es =>
    if (os.Kill p s).1 = k then replay os (os.Kill p s).2 es else none
  | s, Event.Partitions all r :: es =>
    if (os.Partitions all s).1 = r then replay os (os.Partitions all s).2 es else none
  | s, Event.Usage path r :: es =>
    if (os.Usage path s).1 = r then replay os (os.Usage path s).2 es else none
  | s, Event.Println _ :: es => replay os s es

/-- The `float64` lies between 0 and 100, the range of a use percentage in the data model:
the bit patterns of the non-negative `float64` values are ordered as the values are, and
`0x4059000000000000` is 100. -/
def percentInRange (bits : Nat) : Bool := decide (bits ≤ 0x4059000000000000)

/-- Go `encoding/json` refuses a `float64` that is NaN or an infinity: exponent bits all
set in the bit pattern. -/
def notFinite (bits : Nat) : Bool := (bits / 2 ^ 52) % 2 ^ 11 = 2 ^ 11 - 1

/-! ## A small machine to run the program on -/

/-- A process table entry: pid, the result of reading the name, the result of a
termination request. -/
structure Entry where
  pid : Int
  name : Res GoString
  kill : Option GoError
deriving DecidableEq, Repr

/-- A partition with the result of its usage query. -/
structure Mount where
  stat : PartitionStat
  usage : Res UsageStat
deriving DecidableEq, Repr

/-- A machine with a fixed process table and partition list.  Its state is the list of
pids terminated so far; a terminated process is gone, so asking for it again fails.
Serialisation fails exactly on a use percentage that is not finite and otherwise yields
one line per record (the device name). -/
def machine (table : List Entry) (mounts : Res (List Mount)) : OS (List Int) where
  NewProcess := fun pid s =>
    if table.any (fun e => e.pid = pid) && !s.contains pid then (Res.ok ⟨pid⟩, s)
    else (Res.err (GoError.lib (lit "process does not exist")), s)
  Processes := fun s => (Res.ok ((table.filter (fun e => !s.contains e.pid)).map (fun e => ⟨e.pid⟩)), s)
  Name := fun p s =>
    match table.find? (fun e => e.pid = p.Pid) with
    | some e => (e.name, s)
    | none => (Res.err (GoError.lib (lit "process does not exist")), s)
  Kill := fun p s =>
    match table.find? (fun e => e.pid = p.Pid) with
    | some e =>
      match e.kill with
      | none => (none, p.Pid :: s)
      | some err => (some err, s)
    | none => (some (GoError.lib (lit "process does not exist")), s)
  Partitions := fun _ s =>
    match mounts with
    | Res.ok ms => (Res.ok (ms.map (fun m => m.stat)), s)
    | Res.err e => (Res.err e, s)
  Usage := fun path s =>
    match mounts with
    | Res.ok ms =>
      match ms.find? (fun m => m.stat.Mountpoint = path) with
      | some m => (m.usage, s)
      | none => (Res.err (GoError.lib (lit "no such file or directory")), s)
    | Res.err e => (Res.err e, s)
  MarshalIndent := fun vols =>
    if vols.any (fun v => notFinite v.UsePercent) then
      Res.err (GoError.lib (lit "json: unsupported value: NaN"))
    else Res.ok (Join (vols.map (fun v => v.Name)) (lit "\n"))

/-- A process table: `init` (cannot be terminated), two `bash`, one `Bash`, one process
whose name cannot be read and one with an empty name. -/
def demoTable : List Entry :=
  [ ⟨1, Res.ok (lit "init"), some (GoError.lib (lit "operation not permitted"))⟩,
    ⟨10, Res.ok (lit "bash"), none⟩,
    ⟨11, Res.ok (lit "bash"), some (GoError.lib (lit "operation not permitted"))⟩,
    ⟨12, Res.err (GoError.lib (lit "permission denied")), none⟩,
    ⟨13, Res.ok [], none⟩,
    ⟨14, Res.ok (lit "Bash"), none⟩ ]

/-- A usage record with the given use percentage (bit pattern). -/
def demoUsage (path : GoString) (pct : Nat) : UsageStat :=
  { Path := path, Fstype := lit "ext4", Total := 1000, Free := 400, Used := 600,
    UsedPercent := pct, InodesTotal := 10, InodesUsed := 4, InodesFree := 6,
    InodesUsedPercent := 0x4044000000000000 }

/-- Three partitions; the usage query of the second one fails. -/
def demoMounts : List Mount :=
  [ ⟨⟨lit "/dev/sda1", lit "/", lit "ext4", lit "rw"⟩, Res.ok (demoUsage (lit "/") 0x404E000000000000)⟩,
    ⟨⟨lit "proc", lit "/proc", lit "proc", lit "rw"⟩, Res.err (GoError.lib (lit "permission denied"))⟩,
    ⟨⟨lit "/dev/sdb1", lit "/home", lit "ext4", lit "rw"⟩, Res.ok (demoUsage (lit "/home") 0x404E000000000000)⟩ ]

/-- The demonstration machine: `demoTable` and `demoMounts`. -/
def demoOS : OS (List Int) := machine demoTable (Res.ok demoMounts)

/-- `kill --name bash`. -/
def killBash : Context := ⟨[], none, some (lit "bash")⟩

/-- `kill --name Bash`: on "linux" only process 14 has that name. -/
def killCapital : Context := ⟨[], none, some (lit "Bash")⟩

/-- `kill --name zsh`: no process of `demoTable` has that name. -/
def killZsh : Context := ⟨[], none, some (lit "zsh")⟩

/-- `kill --id 10 --name bash`: both selectors. -/
def killBoth : Context := ⟨[], some 10, some (lit "bash")⟩

/-- `kill --id 4294967297`, that is `2^32 + 1`. -/
def killWrapped : Context := ⟨[], some 4294967297, none⟩

/-- `volumes`. -/
def listVolumes : Context := ⟨[], none, none⟩

/-! ## Name comparison -/

theorem first_ascii {c : Nat} (h : c < 0x80) : first c = 0xF0 := by
  simp [first, h]

theorem first_cases (c : Nat) :
    first c = 0xF0 ∨ first c = 0xF1 ∨ first c = 0x02 ∨ first c = 0x13 ∨ first c = 0x03 ∨
      first c = 0x23 ∨ first c = 0x34 ∨ first c = 0x04 ∨ first c = 0x44 := by
  unfold first
  split_ifs <;> simp

/-- `DecodeRuneInString` consumes between one byte and the whole of a non-empty string. -/
theorem DecodeRuneInString_width (c : Nat) (rest : GoString) :
    1 ≤ (DecodeRuneInString (c :: rest)).2 ∧
      (DecodeRuneInString (c :: rest)).2 ≤ (c :: rest).length := by
  unfold DecodeRuneInString
  rcases first_cases c with h | h | h | h | h | h | h | h | h <;> simp only [h] <;>
    (rcases rest with _ | ⟨s1, _ | ⟨s2, _ | ⟨s3, r3⟩⟩⟩ <;> simp <;> (repeat' split) <;> simp_all)

/-- "Extract first rune" is `DecodeRuneInString` followed by the slicing. -/
theorem extractRune_eq (c : Nat) (rest : GoString) :
    extractRune (c :: rest) =
      ((DecodeRuneInString (c :: rest)).1,
        (c :: rest).drop (DecodeRuneInString (c :: rest)).2) := by
  unfold extractRune
  by_cases h : c < RuneSelf
  · have h2 : c < 0x80 := h
    simp [h, DecodeRuneInString, first_ascii h2]
  · simp [h]

theorem extractRune_length (c : Nat) (rest : GoString) :
    (extractRune (c :: rest)).2.length ≤ rest.length := by
  rw [extractRune_eq]
  have h := DecodeRuneInString_width c rest
  simp only [List.length_drop, List.length_cons] at h ⊢
  omega

theorem runesAux_fuel (n m : Nat) (s : GoString) (hn : s.length ≤ n) (hm : s.length ≤ m) :
    runesAux n s = runesAux m s := by
  induction n generalizing m s with
  | zero =>
    have hs : s = [] := List.length_eq_zero.mp (Nat.le_zero.mp hn)
    subst hs
    cases m <;> simp [runesAux]
  | succ n ih =>
    cases s with
    | nil => cases m <;> simp [runesAux]
    | cons c rest =>
      cases m with
      | zero => simp at hm
      | succ m =>
        have hl := extractRune_length c rest
        simp only [List.length_cons] at hn hm
        simp only [runesAux]
        rw [ih m _ (by omega) (by omega)]

theorem runes_nil : runes [] = [] := rfl

theorem runes_cons (c : Nat) (rest : GoString) :
    runes (c :: rest) = (extractRune (c :: rest)).1 :: runes (extractRune (c :: rest)).2 := by
  have hl := extractRune_length c rest
  simp only [runes, List.length_cons, runesAux]
  rw [runesAux_fuel rest.length _ _ hl (le_refl _)]

/-- With enough fuel, the loop of `strings.EqualFold` compares the code points of the two
strings position by position. -/
theorem equalFoldLoop_eq (sf : Nat → Nat → Bool) (n : Nat) (s t : GoString)
    (hn : s.length ≤ n) :
    equalFoldLoop sf n s t = runesEqualFold sf (runes s) (runes t) := by
  induction n generalizing s t with
  | zero =>
    have hs : s = [] := List.length_eq_zero.mp (Nat.le_zero.mp hn)
    subst hs
    cases t with
    | nil => simp [equalFoldLoop, runes_nil, runesEqualFold]
    | cons d rest2 => simp [equalFoldLoop, runes_nil, runes_cons, runesEqualFold]
  | succ n ih =>
    cases s with
    | nil =>
      cases t with
      | nil => simp [equalFoldLoop, runes_nil, runesEqualFold]
      | cons d rest2 => simp [equalFoldLoop, runes_nil, runes_cons, runesEqualFold]
    | cons c rest =>
      cases t with
      | nil => simp [equalFoldLoop, runes_nil, runes_cons, runesEqualFold]
      | cons d rest2 =>
        have hl := extractRune_length c rest
        simp only [List.length_cons] at hn
        have ih2 := ih (extractRune (c :: rest)).2 (extractRune (d :: rest2)).2 (by omega)
        rw [runes_cons c rest, runes_cons d rest2]
        simp only [equalFoldLoop, runesEqualFold, ih2]
        cases runeEqualFold sf (extractRune (c :: rest)).1 (extractRune (d :: rest2)).1 <;> simp

/-- `strings.EqualFold` holds exactly when the two strings, read as code points, have the
same length and agree position by position up to case folding. -/
theorem EqualFold_eq (sf : Nat → Nat → Bool) (s t : GoString) :
    EqualFold sf s t = runesEqualFold sf (runes s) (runes t) :=
  equalFoldLoop_eq sf s.length s t (le_refl _)

/-- The test of `strings.EqualFold` on two code points is "the same letter up to case". -/
theorem runeEqualFold_eq (sf : Nat → Nat → Bool) (r t : Nat) :
    runeEqualFold sf r t = sameLetterUpToCase sf r t := by
  unfold runeEqualFold sameLetterUpToCase RuneSelf
  by_cases h : t = r
  · subst h; simp
  · have h2 : ¬ r = t := fun e => h e.symm
    simp only [h, h2, if_false, decide_False, Bool.false_or]
    by_cases hlt : t < r
    · have hmin : min r t = t := by omega
      have hmax : max r t = r := by omega
      simp only [hlt, if_true, hmin, hmax]
      by_cases hr : r < 0x80
      · have h3 : ¬ (0x41 ≤ r ∧ r ≤ 0x5A ∧ t = r + 0x20) := by omega
        have h4 : (r < 0x80 ∧ t < 0x80) := by omega
        simp [hr, h3, h4]
      · have h3 : ¬ (0x41 ≤ r ∧ r ≤ 0x5A ∧ t = r + 0x20) := by omega
        have h4 : ¬ (r < 0x80 ∧ t < 0x80) := by omega
        have h5 : ¬ (0x41 ≤ t ∧ t ≤ 0x5A ∧ r = t + 0x20) := by omega
        simp [hr, h3, h4, h5]
    · have hmin : min r t = r := by omega
      have hmax : max r t = t := by omega
      simp only [hlt, if_false, hmin, hmax]
      by_cases ht : t < 0x80
      · have h3 : ¬ (0x41 ≤ t ∧ t ≤ 0x5A ∧ r = t + 0x20) := by omega
        have h4 : (r < 0x80 ∧ t < 0x80) := by omega
        simp [ht, h3, h4]
      · have h3 : ¬ (0x41 ≤ r ∧ r ≤ 0x5A ∧ t = r + 0x20) := by omega
        have h4 : ¬ (r < 0x80 ∧ t < 0x80) := by omega
        have h5 : ¬ (0x41 ≤ t ∧ t ≤ 0x5A ∧ r = t + 0x20) := by omega
        simp [ht, h3, h4, h5]

theorem textUnitsAux_fuel (n m : Nat) (s : GoString) (hn : s.length ≤ n) (hm : s.length ≤ m) :
    textUnitsAux n s = textUnitsAux m s := by
  induction n generalizing m s with
  | zero =>
    have hs : s = [] := List.length_eq_zero.mp (Nat.le_zero.mp hn)
    subst hs
    cases m <;> simp [textUnitsAux]
  | succ n ih =>
    cases s with
    | nil => cases m <;> simp [textUnitsAux]
    | cons c rest =>
      cases m with
      | zero => simp at hm
      | succ m =>
        have hw := DecodeRuneInString_width c rest
        simp only [List.length_cons] at hn hm hw
        simp only [textUnitsAux]
        rw [ih m rest (by omega) (by omega),
          ih m ((c :: rest).drop (DecodeRuneInString (c :: rest)).2)
            (by simp only [List.length_drop, List.length_cons]; omega)
            (by simp only [List.length_drop, List.length_cons]; omega)]

theorem textUnits_nil : textUnits [] = [] := rfl

theorem textUnits_cons (c : Nat) (rest : GoString) :
    textUnits (c :: rest) =
      if wellFormedAt (c :: rest) then
        TextUnit.rune (DecodeRuneInString (c :: rest)).1 ::
          textUnits ((c :: rest).drop (DecodeRuneInString (c :: rest)).2)
      else TextUnit.raw c :: textUnits rest := by
  have hw := DecodeRuneInString_width c rest
  simp only [List.length_cons] at hw
  simp only [textUnits, List.length_cons, textUnitsAux]
  rw [textUnitsAux_fuel rest.length
      ((c :: rest).drop (DecodeRuneInString (c :: rest)).2).length
      ((c :: rest).drop (DecodeRuneInString (c :: rest)).2)
      (by simp only [List.length_drop, List.length_cons]; omega) (le_refl _)]

/-- A well-formed string has the code points Go reads from it as its text units. -/
theorem textUnits_of_valid (n : Nat) (s : GoString) (hn : s.length ≤ n)
    (hv : ValidString s = true) : textUnits s = (runes s).map TextUnit.rune := by
  induction n generalizing s with
  | zero =>
    have hs : s = [] := List.length_eq_zero.mp (Nat.le_zero.mp hn)
    subst hs
    rfl
  | succ n ih =>
    cases s with
    | nil => rfl
    | cons c rest =>
      have hw := DecodeRuneInString_width c rest
      simp only [List.length_cons] at hw hn
      unfold ValidString at hv
      rw [textUnits_cons] at hv ⊢
      rw [runes_cons, extractRune_eq]
      by_cases hwf : wellFormedAt (c :: rest) = true
      · simp only [hwf, if_true, List.all_cons, Bool.true_and] at hv ⊢
        rw [ih _ (by simp only [List.length_drop, List.length_cons]; omega) hv]
        simp
      · simp [hwf] at hv

theorem sameUnitsUpToCase_map (sf : Nat → Nat → Bool) (rs ts : List Nat) :
    sameUnitsUpToCase sf (rs.map TextUnit.rune) (ts.map TextUnit.rune) =
      runesEqualFold sf rs ts := by
  induction rs generalizing ts with
  | nil => cases ts <;> simp [sameUnitsUpToCase, runesEqualFold]
  | cons r rs ih =>
    cases ts with
    | nil => simp [sameUnitsUpToCase, runesEqualFold]
    | cons t ts =>
      simp [sameUnitsUpToCase, runesEqualFold, sameUnitUpToCase, ih, runeEqualFold_eq]

/-- On well-formed strings `strings.EqualFold` decides "differ only in letter case". -/
theorem EqualFold_valid (sf : Nat → Nat → Bool) (a b : GoString)
    (ha : ValidString a = true) (hb : ValidString b = true) :
    EqualFold sf a b = differOnlyInLetterCase sf a b := by
  unfold differOnlyInLetterCase
  rw [textUnits_of_valid a.length a (le_refl _) ha, textUnits_of_valid b.length b (le_refl _) hb,
    sameUnitsUpToCase_map, EqualFold_eq]

theorem runes_of_ascii (s : GoString) (h : isASCII s = true) : runes s = s := by
  induction s with
  | nil => rfl
  | cons c rest ih =>
    simp only [isASCII, List.all_cons, Bool.and_eq_true, decide_eq_true_eq] at h
    have hr : isASCII rest = true := h.2
    rw [runes_cons]
    simp only [extractRune, h.1, if_true]
    rw [ih hr]

theorem runeEqualFold_ascii (sf : Nat → Nat → Bool) (r t : Nat) (hr : r < RuneSelf)
    (ht : t < RuneSelf) :
    runeEqualFold sf r t = decide (asciiLower r = asciiLower t) := by
  unfold RuneSelf at hr ht
  unfold runeEqualFold asciiLower RuneSelf
  by_cases h : t = r
  · subst h; simp
  · by_cases hlt : t < r
    · simp only [h, hlt, if_true, if_false, hr]
      congr 1
      apply propext
      constructor
      · intro h1; split_ifs <;> omega
      · intro h1; split_ifs at h1 <;> omega
    · simp only [h, hlt, if_true, if_false, ht]
      congr 1
      apply propext
      constructor
      · intro h1; split_ifs <;> omega
      · intro h1; split_ifs at h1 <;> omega

/-- On ASCII strings `strings.EqualFold` is equality after mapping `A`-`Z` to `a`-`z`. -/
theorem EqualFold_ascii (sf : Nat → Nat → Bool) (a b : GoString) (ha : isASCII a = true)
    (hb : isASCII b = true) :
    EqualFold sf a b = decide (a.map asciiLower = b.map asciiLower) := by
  rw [EqualFold_eq, runes_of_ascii a ha, runes_of_ascii b hb]
  induction a generalizing b with
  | nil => cases b <;> simp [runesEqualFold]
  | cons r rs ih =>
    cases b with
    | nil => simp [runesEqualFold]
    | cons t ts =>
      simp only [isASCII, List.all_cons, Bool.and_eq_true, decide_eq_true_eq] at ha hb
      have ih2 := ih ts ha.2 hb.2
      simp only [runesEqualFold, runeEqualFold_ascii sf r t ha.1 hb.1, ih2, List.map_cons,
        List.cons.injEq, Bool.decide_and]

/-! ## Reading a run: how the readings split over a concatenation -/

theorem namesRead_cons_name (p : Process) (r : Res GoString) (es : List Event) :
    namesRead (Event.Name p r :: es) = (p, r) :: namesRead es := by
  simp [namesRead]

theorem namesRead_cons_kill (p : Process) (k : Option GoError) (es : List Event) :
    namesRead (Event.Kill p k :: es) = namesRead es := by
  simp [namesRead]

theorem terminations_cons_name (p : Process) (r : Res GoString) (es : List Event) :
    terminations (Event.Name p r :: es) = terminations es := by
  simp [terminations]

theorem terminations_cons_kill (p : Process) (k : Option GoError) (es : List Event) :
    terminations (Event.Kill p k :: es) = (p, k) :: terminations es := by
  simp [terminations]

theorem printed_cons_name (p : Process) (r : Res GoString) (es : List Event) :
    printed (Event.Name p r :: es) = printed es := by
  simp [printed]

theorem printed_cons_kill (p : Process) (k : Option GoError) (es : List Event) :
    printed (Event.Kill p k :: es) = printed es := by
  simp [printed]

theorem lookups_cons_name (p : Process) (r : Res GoString) (es : List Event) :
    lookups (Event.Name p r :: es) = lookups es := by
  simp [lookups]

theorem lookups_cons_kill (p : Process) (k : Option GoError) (es : List Event) :
    lookups (Event.Kill p k :: es) = lookups es := by
  simp [lookups]

/-- A step of the loop of `killProcess` on a process whose name does not match: the name
is read and nothing else happens. -/
theorem killLoop_skip {σ : Type} (goos : String) (sf : Nat → Nat → Bool) (os : OS σ)
    (target : GoString) (p : Process) (ps : List Process) (errs : List GoString) (found : Bool)
    (s s1 : σ) (r : Res GoString) (hn : os.Name p s = (r, s1))
    (hm : nameMatches goos sf target r = false) :
    killLoop goos sf os target (p :: ps) errs found s =
      (killLoop goos sf os target ps errs found s1).after [Event.Name p r] := by
  cases r with
  | err e => simp [killLoop, hn]
  | ok v =>
    by_cases hv : v = []
    · simp [killLoop, hn, hv]
    · simp only [nameMatches, ne_eq, hv, not_false_eq_true, decide_True, Bool.true_and] at hm
      simp [killLoop, hn, hv, hm]

/-- A step of the loop of `killProcess` on a process whose name matches: the name is
read, termination is requested, a failure message is appended to `errs`, and `found` is
set. -/
theorem killLoop_kill {σ : Type} (goos : String) (sf : Nat → Nat → Bool) (os : OS σ)
    (target : GoString) (p : Process) (ps : List Process) (errs : List GoString) (found : Bool)
    (s s1 s2 : σ) (r : Res GoString) (k : Option GoError) (hn : os.Name p s = (r, s1))
    (hm : nameMatches goos sf target r = true) (hk : os.Kill p s1 = (k, s2)) :
    killLoop goos sf os target (p :: ps) errs found s =
      (killLoop goos sf os target ps (errs ++ (k.map GoError.Error).toList) true s2).after
        [Event.Name p r, Event.Kill p k] := by
  cases r with
  | err e => simp [nameMatches] at hm
  | ok v =>
    simp only [nameMatches, ne_eq, Bool.and_eq_true, decide_eq_true_eq] at hm
    cases k with
    | none => simp [killLoop, hn, hm.1, hm.2, hk]
    | some err => simp [killLoop, hn, hm.1, hm.2, hk]

/-- What the loop of `killProcess` does: it reads the name of every process once, in
order; it requests termination of exactly the processes whose name matched; `errs` grows
by the messages of the failed requests and `found` is set as soon as one is made; nothing
is printed and no process is looked up. -/
theorem killLoop_spec {σ : Type} (goos : String) (sf : Nat → Nat → Bool) (os : OS σ)
    (target : GoString) (ps : List Process) (errs : List GoString) (found : Bool) (s : σ) :
    (namesRead (killLoop goos sf os target ps errs found s).events).map Prod.fst = ps ∧
      killed (killLoop goos sf os target ps errs found s).events =
        matched goos sf target (killLoop goos sf os target ps errs found s).events ∧
      (killLoop goos sf os target ps errs found s).ret.1 =
        errs ++ failures (killLoop goos sf os target ps errs found s).events ∧
      (killLoop goos sf os target ps errs found s).ret.2 =
        (found || !(killed (killLoop goos sf os target ps errs found s).events).isEmpty) ∧
      printed (killLoop goos sf os target ps errs found s).events = [] ∧
      lookups (killLoop goos sf os target ps errs found s).events = [] := by
  induction ps generalizing errs found s with
  | nil => simp [killLoop, namesRead, killed, matched, failures, terminations, printed, lookups]
  | cons p ps ih =>
    rcases hn : os.Name p s with ⟨r, s1⟩
    by_cases hm : nameMatches goos sf target r = true
    · rcases hk : os.Kill p s1 with ⟨k, s2⟩
      rw [killLoop_kill goos sf os target p ps errs found s s1 s2 r k hn hm hk]
      obtain ⟨h1, h2, h3, h4, h5, h6⟩ := ih (errs ++ (k.map GoError.Error).toList) true s2
      simp only [killed, matched, failures] at h2 h3 h4 ⊢
      simp only [Run.after, List.cons_append, List.nil_append, namesRead_cons_name,
        namesRead_cons_kill, terminations_cons_name, terminations_cons_kill, printed_cons_name,
        printed_cons_kill, lookups_cons_name, lookups_cons_kill, List.map_cons,
        List.filter_cons, hm, if_true, List.filterMap_cons]
      refine ⟨by rw [h1], by rw [h2], ?_, by simp [h4], h5, h6⟩
      rw [h3]
      cases k <;> simp
    · have hm2 : nameMatches goos sf target r = false := by simpa using hm
      rw [killLoop_skip goos sf os target p ps errs found s s1 r hn hm2]
      obtain ⟨h1, h2, h3, h4, h5, h6⟩ := ih errs found s1
      simp only [killed, matched, failures] at h2 h3 h4 ⊢
      simp only [Run.after, List.singleton_append, namesRead_cons_name,
        terminations_cons_name, printed_cons_name, lookups_cons_name, List.map_cons,
        List.filter_cons, hm2, Bool.false_eq_true, if_false]
      exact ⟨by rw [h1], h2, h3, h4, h5, h6⟩

/-! ## `killProcess` and `KillAction` -/

/-- The by-name path of `killProcess` when the enumeration succeeds: the events are the
enumeration followed by those of the loop, and the result is read off the termination
requests. -/
theorem killProcess_byName_ok {σ : Type} (goos : String) (sf : Nat → Nat → Bool) (os : OS σ)
    (c : Context) (s s1 : σ) (ps : List Process) (hid : c.IsSet "id" = false)
    (hp : os.Processes s = (Res.ok ps, s1)) :
    (killProcess goos sf os c s).events =
        Event.Processes (Res.ok ps) :: (killLoop goos sf os c.String ps [] false s1).events ∧
      (killProcess goos sf os c s).ret = byNameOutcome (killProcess goos sf os c s).events := by
  obtain ⟨_, _, h3, h4, _, _⟩ := killLoop_spec goos sf os c.String ps [] false s1
  have hev : (killProcess goos sf os c s).events =
      Event.Processes (Res.ok ps) :: (killLoop goos sf os c.String ps [] false s1).events := by
    simp [killProcess, hid, hp]
  refine ⟨hev, ?_⟩
  have hk : killed (Event.Processes (Res.ok ps) ::
      (killLoop goos sf os c.String ps [] false s1).events) =
      killed (killLoop goos sf os c.String ps [] false s1).events := by
    simp [killed, terminations]
  have hf : failures (Event.Processes (Res.ok ps) ::
      (killLoop goos sf os c.String ps [] false s1).events) =
      failures (killLoop goos sf os c.String ps [] false s1).events := by
    simp [failures, terminations]
  rw [hev]
  unfold byNameOutcome
  rw [hk, hf]
  simp only [killProcess, hid, hp, Bool.false_eq_true, if_false, h3, h4, List.nil_append,
    Bool.false_or]
  by_cases hk0 : killed (killLoop goos sf os c.String ps [] false s1).events = []
  · simp [hk0]
  · by_cases hf0 : failures (killLoop goos sf os c.String ps [] false s1).events = []
    · simp [hk0, hf0]
    · simp [hk0, hf0]

/-- The by-name path of `killProcess` when the enumeration fails: that error, and nothing
else happens. -/
theorem killProcess_byName_err {σ : Type} (goos : String) (sf : Nat → Nat → Bool) (os : OS σ)
    (c : Context) (s s1 : σ) (e : GoError) (hid : c.IsSet "id" = false)
    (hp : os.Processes s = (Res.err e, s1)) :
    (killProcess goos sf os c s).events = [Event.Processes (Res.err e)] ∧
      (killProcess goos sf os c s).ret = some e := by
  simp [killProcess, hid, hp]

/-- The by-ID path of `killProcess`: one lookup, of the process `int32(id)`; when it fails
its error is the result and nothing else happens; otherwise termination of the process
found is requested once and its result is the result. -/
theorem killProcess_byId {σ : Type} (goos : String) (sf : Nat → Nat → Bool) (os : OS σ)
    (c : Context) (s : σ) (hid : c.IsSet "id" = true) :
    (∀ e s1, os.NewProcess (int32 c.Uint) s = (Res.err e, s1) →
        killProcess goos sf os c s = ⟨some e, [Event.NewProcess (int32 c.Uint) (Res.err e)], s1⟩) ∧
      (∀ proc s1 k s2, os.NewProcess (int32 c.Uint) s = (Res.ok proc, s1) →
        os.Kill proc s1 = (k, s2) →
        killProcess goos sf os c s =
          ⟨k, [Event.NewProcess (int32 c.Uint) (Res.ok proc), Event.Kill proc k], s2⟩) := by
  constructor
  · intro e s1 h
    simp [killProcess, hid, h]
  · intro proc s1 k s2 h hk
    simp [killProcess, hid, h, hk]

/-- `KillAction` on a well-formed by-name invocation runs `killProcess` and prints the
success message once when it returns no error. -/
theorem KillAction_byName {σ : Type} (goos : String) (sf : Nat → Nat → Bool) (os : OS σ)
    (c : Context) (s : σ) (hargs : c.Args = []) (hid : c.IsSet "id" = false)
    (hname : c.String ≠ []) :
    (KillAction goos sf os c s).ret = (killProcess goos sf os c s).ret ∧
      (KillAction goos sf os c s).events =
        (killProcess goos sf os c s).events ++
          (if (killProcess goos sf os c s).ret = none then
            [Event.Println (lit "Process killed successfully.")] else []) := by
  unfold KillAction
  simp only [hargs, hid, hname, List.length_nil, gt_iff_lt, lt_self_iff_false, if_false,
    Bool.false_and, Bool.false_eq_true, Bool.not_false, Bool.true_and, decide_eq_true_eq]
  rcases killProcess goos sf os c s with ⟨ret, es, s1⟩
  cases ret <;> simp

/-- `KillAction` on an invocation that fails validation: an error, no event, the state
untouched. -/
theorem KillAction_invalid {σ : Type} (goos : String) (sf : Nat → Nat → Bool) (os : OS σ)
    (c : Context) (s : σ)
    (h : c.Args ≠ [] ∨ (c.IsSet "id" = true ∧ c.IsSet "name" = true) ∨
      (c.IsSet "id" = false ∧ c.String = [])) :
    ∃ e, KillAction goos sf os c s = ⟨some e, [], s⟩ := by
  unfold KillAction
  by_cases h1 : c.Args.length > 0
  · exact ⟨errors.New (lit "no arguments is expected, use flags"), by simp [h1]⟩
  · have h1a : c.Args = [] := by
      cases hc : c.Args with
      | nil => rfl
      | cons a as => simp [hc] at h1
    by_cases h2 : (c.IsSet "id" && c.IsSet "name") = true
    · exact ⟨errors.New (lit "either pid or name flag must be provided"),
        by simp only [h1, if_false, h2, if_true]⟩
    · by_cases h3 : (!c.IsSet "id" && decide (c.String = [])) = true
      · exact ⟨errors.New (lit "name flag cannot be empty"),
          by simp only [h1, if_false, h2, h3, if_true, Bool.false_eq_true]⟩
      · exfalso
        rcases h with h | h | h
        · exact h h1a
        · simp [h.1, h.2] at h2
        · simp [h.1, h.2] at h3

theorem readings_append_println (es : List Event) (line : GoString) :
    namesRead (es ++ [Event.Println line]) = namesRead es ∧
      terminations (es ++ [Event.Println line]) = terminations es ∧
      printed (es ++ [Event.Println line]) = printed es ++ [line] := by
  simp [namesRead, terminations, printed]

/-- The by-name path of `killProcess`, whatever the enumeration answers: termination is
requested of exactly the processes whose name matched, nothing is printed, and the result
is read off the termination requests unless the enumeration itself failed. -/
theorem killProcess_byName_run {σ : Type} (goos : String) (sf : Nat → Nat → Bool) (os : OS σ)
    (c : Context) (s : σ) (hid : c.IsSet "id" = false) :
    killed (killProcess goos sf os c s).events =
        matched goos sf c.String (killProcess goos sf os c s).events ∧
      printed (killProcess goos sf os c s).events = [] ∧
      ((killProcess goos sf os c s).ret = none ↔
        killed (killProcess goos sf os c s).events ≠ [] ∧
          failures (killProcess goos sf os c s).events = []) ∧
      (failures (killProcess goos sf os c s).events ≠ [] →
        (killProcess goos sf os c s).ret =
          some (errors.New (Join (failures (killProcess goos sf os c s).events) (lit "\n")))) := by
  rcases hp : os.Processes s with ⟨r, s1⟩
  cases r with
  | err e =>
    obtain ⟨hev, hret⟩ := killProcess_byName_err goos sf os c s s1 e hid hp
    rw [hev, hret]
    simp [killed, matched, failures, terminations, namesRead, printed]
  | ok ps =>
    obtain ⟨hev, hret⟩ := killProcess_byName_ok goos sf os c s s1 ps hid hp
    obtain ⟨_, h2, _, _, h5, _⟩ := killLoop_spec goos sf os c.String ps [] false s1
    rw [hret]
    unfold byNameOutcome
    rw [hev]
    have hk : killed (Event.Processes (Res.ok ps) ::
        (killLoop goos sf os c.String ps [] false s1).events) =
        killed (killLoop goos sf os c.String ps [] false s1).events := by
      simp [killed, terminations]
    have hm : matched goos sf c.String (Event.Processes (Res.ok ps) ::
        (killLoop goos sf os c.String ps [] false s1).events) =
        matched goos sf c.String (killLoop goos sf os c.String ps [] false s1).events := by
      simp [matched, namesRead]
    have hf : failures (Event.Processes (Res.ok ps) ::
        (killLoop goos sf os c.String ps [] false s1).events) =
        failures (killLoop goos sf os c.String ps [] false s1).events := by
      simp [failures, terminations]
    have hpr : printed (Event.Processes (Res.ok ps) ::
        (killLoop goos sf os c.String ps [] false s1).events) =
        printed (killLoop goos sf os c.String ps [] false s1).events := by
      simp [printed]
    rw [hk, hm, hf, hpr]
    refine ⟨h2, h5, ?_, ?_⟩
    · by_cases hk0 : killed (killLoop goos sf os c.String ps [] false s1).events = []
      · simp [hk0]
      · by_cases hf0 : failures (killLoop goos sf os c.String ps [] false s1).events = []
        · simp [hk0, hf0]
        · simp [hk0, hf0]
    · intro hf0
      have hk0 : killed (killLoop goos sf os c.String ps [] false s1).events ≠ [] := by
        intro h0
        apply hf0
        simp only [killed, List.map_eq_nil_iff] at h0
        simp [failures, h0]
      simp [hk0, hf0]

/-! ## `ActionVolumes` -/

theorem usageQueries_cons_usage (path : GoString) (r : Res UsageStat) (es : List Event) :
    usageQueries (Event.Usage path r :: es) = (path, r) :: usageQueries es := by
  simp [usageQueries]

theorem printed_cons_usage (path : GoString) (r : Res UsageStat) (es : List Event) :
    printed (Event.Usage path r :: es) = printed es := by
  simp [printed]

/-- What the loop of `ActionVolumes` does: one usage query per partition, on its mount
point, in order, and nothing else; `vols` grows by the records of the partitions whose
query succeeded. -/
theorem volumesLoop_spec {σ : Type} (os : OS σ) (stats : List PartitionStat)
    (vols : List Volume) (s : σ) :
    (usageQueries (volumesLoop os stats vols s).events).map Prod.fst =
        stats.map (fun st => st.Mountpoint) ∧
      (volumesLoop os stats vols s).ret =
        vols ++ volumesOf stats ((usageQueries (volumesLoop os stats vols s).events).map Prod.snd) ∧
      printed (volumesLoop os stats vols s).events = [] ∧
      (usageQueries (volumesLoop os stats vols s).events).length =
        (volumesLoop os stats vols s).events.length := by
  induction stats generalizing vols s with
  | nil => simp [volumesLoop, usageQueries, volumesOf, printed]
  | cons stat stats ih =>
    rcases hu : os.Usage stat.Mountpoint s with ⟨r, s1⟩
    cases r with
    | err e =>
      obtain ⟨h1, h2, h3, h4⟩ := ih vols s1
      simp only [volumesLoop, hu, Run.after, List.singleton_append, usageQueries_cons_usage,
        printed_cons_usage, List.map_cons, volumesOf, List.length_cons]
      exact ⟨by rw [h1], h2, h3, by rw [h4]⟩
    | ok usage =>
      obtain ⟨h1, h2, h3, h4⟩ := ih (vols ++ [volumeOf stat usage]) s1
      simp only [volumeOf] at h1 h2 h3 h4
      simp only [volumesLoop, hu, Run.after, List.singleton_append, usageQueries_cons_usage,
        printed_cons_usage, List.map_cons, volumesOf, volumeOf, List.length_cons]
      refine ⟨by rw [h1], ?_, h3, by rw [h4]⟩
      rw [h2]
      simp

theorem succeeded_failed_length (rs : List (Res UsageStat)) :
    (succeeded rs).length + (failed rs).length = rs.length := by
  induction rs with
  | nil => rfl
  | cons r rs ih =>
    cases r with
    | ok u => simp only [succeeded, failed, List.filter_cons] at ih ⊢; simp; omega
    | err e => simp only [succeeded, failed, List.filter_cons] at ih ⊢; simp; omega

/-- One record for every query that succeeded. -/
theorem volumesOf_length (stats : List PartitionStat) (rs : List (Res UsageStat))
    (h : rs.length = stats.length) : (volumesOf stats rs).length = (succeeded rs).length := by
  induction stats generalizing rs with
  | nil =>
    have : rs = [] := List.length_eq_zero.mp h
    subst this
    rfl
  | cons st stats ih =>
    cases rs with
    | nil => simp at h
    | cons r rs =>
      have h2 : rs.length = stats.length := by simpa using h
      have ih2 := ih rs h2
      cases r with
      | ok u => simp only [volumesOf, succeeded, List.filter_cons] at ih2 ⊢; simp [ih2]
      | err e => simp only [volumesOf, succeeded, List.filter_cons] at ih2 ⊢; simp [ih2]

/-- `ActionVolumes` after a successful enumeration: the events are the enumeration, the
usage queries of the loop and, when serialisation succeeds, one line of output. -/
theorem ActionVolumes_ok {σ : Type} (os : OS σ) (c : Context) (s s1 : σ)
    (stats : List PartitionStat) (h : os.Partitions true s = (Res.ok stats, s1)) :
    (∀ text, os.MarshalIndent (volumesLoop os stats [] s1).ret = Res.ok text →
        ActionVolumes os c s =
          ⟨none, Event.Partitions true (Res.ok stats) ::
            ((volumesLoop os stats [] s1).events ++ [Event.Println text]),
            (volumesLoop os stats [] s1).os⟩) ∧
      (∀ e, os.MarshalIndent (volumesLoop os stats [] s1).ret = Res.err e →
        ActionVolumes os c s =
          ⟨some e, Event.Partitions true (Res.ok stats) :: (volumesLoop os stats [] s1).events,
            (volumesLoop os stats [] s1).os⟩) := by
  constructor
  · intro text ht
    simp [ActionVolumes, h, ht]
  · intro e he
    simp [ActionVolumes, h, he]

theorem usageQueries_partitions (r : Res (List PartitionStat)) (es : List Event)
    (line : GoString) :
    usageQueries (Event.Partitions true r :: es) = usageQueries es ∧
      usageQueries (Event.Partitions true r :: (es ++ [Event.Println line])) = usageQueries es ∧
      printed (Event.Partitions true r :: es) = printed es ∧
      printed (Event.Partitions true r :: (es ++ [Event.Println line])) = printed es ++ [line] := by
  simp [usageQueries, printed]

/-! ## The claims -/

/-- C4: on "linux", `isEqualProcessName a b` is true if and only if `a` and `b` are
identical byte for byte. -/
theorem isEqualProcessName_linux (sf : Nat → Nat → Bool) (a b : GoString) :
    isEqualProcessName "linux" sf a b = true ↔ a = b := by
  simp [isEqualProcessName]

/-- C5, as amended: on every platform other than "linux", for well-formed UTF-8 strings
`a` and `b`, `isEqualProcessName a b` is true if and only if `a` and `b` differ only in
letter case; for ASCII strings that is equality once `A`-`Z` is mapped to `a`-`z`. -/
theorem isEqualProcessName_other (goos : String) (sf : Nat → Nat → Bool) (a b : GoString)
    (hg : goos ≠ "linux") (ha : ValidString a = true) (hb : ValidString b = true) :
    (isEqualProcessName goos sf a b = true ↔ differOnlyInLetterCase sf a b = true) ∧
      (isASCII a = true → isASCII b = true →
        (isEqualProcessName goos sf a b = true ↔ a.map asciiLower = b.map asciiLower)) := by
  constructor
  · simp only [isEqualProcessName, hg, if_false]
    rw [EqualFold_valid sf a b ha hb]
  · intro ha2 hb2
    simp only [isEqualProcessName, hg, if_false]
    rw [EqualFold_ascii sf a b ha2 hb2]
    simp

/-- Witness of C5: "Bash" and "bash" on "windows". -/
theorem isEqualProcessName_other_witness :
    "windows" ≠ "linux" ∧ ValidString (lit "Bash") = true ∧ ValidString (lit "bash") = true ∧
      ((isEqualProcessName "windows" asciiOnlyFold (lit "Bash") (lit "bash") = true ↔
          differOnlyInLetterCase asciiOnlyFold (lit "Bash") (lit "bash") = true) ∧
        (isASCII (lit "Bash") = true → isASCII (lit "bash") = true →
          (isEqualProcessName "windows" asciiOnlyFold (lit "Bash") (lit "bash") = true ↔
            (lit "Bash").map asciiLower = (lit "bash").map asciiLower))) :=
  ⟨by decide, by decide, by decide,
    isEqualProcessName_other "windows" asciiOnlyFold (lit "Bash") (lit "bash")
      (by decide) (by decide) (by decide)⟩

/-- Counterexample to C5 as stated: on "darwin" the one-byte strings `\xff` and `\xfe`,
neither of which is a letter, compare equal although they do not differ only in letter
case (whatever the Unicode case tables say). -/
theorem isEqualProcessName_ill_formed_bytes :
    (∀ sf : Nat → Nat → Bool, isEqualProcessName "darwin" sf [0xFF] [0xFE] = true) ∧
      (∀ sf : Nat → Nat → Bool, differOnlyInLetterCase sf [0xFF] [0xFE] = false) ∧
      textUnits [0xFF] = [TextUnit.raw 0xFF] ∧ textUnits [0xFE] = [TextUnit.raw 0xFE] :=
  ⟨fun _ => rfl, fun _ => rfl, by decide, by decide⟩

/-- C1: when a positional argument is present, or both flags are set, or neither is
supplied, `KillAction` returns an error without any interaction: no process lookup or
enumeration, no termination request, nothing printed, the operating system untouched. -/
theorem KillAction_rejects_before_any_call {σ : Type} (goos : String) (sf : Nat → Nat → Bool)
    (os : OS σ) (c : Context) (s : σ)
    (h : c.Args ≠ [] ∨ (c.IsSet "id" = true ∧ c.IsSet "name" = true) ∨
      (c.IsSet "id" = false ∧ c.String = [])) :
    (KillAction goos sf os c s).ret ≠ none ∧
      (KillAction goos sf os c s).events = [] ∧
      (KillAction goos sf os c s).os = s ∧
      lookups (KillAction goos sf os c s).events = [] ∧
      namesRead (KillAction goos sf os c s).events = [] ∧
      terminations (KillAction goos sf os c s).events = [] ∧
      printed (KillAction goos sf os c s).events = [] := by
  obtain ⟨e, he⟩ := KillAction_invalid goos sf os c s h
  rw [he]
  simp [lookups, namesRead, terminations, printed]

/-- Witness of C1: `kill --id 10 --name bash` on the demonstration machine. -/
theorem KillAction_rejects_before_any_call_witness :
    (killBoth.IsSet "id" = true ∧ killBoth.IsSet "name" = true) ∧
      (KillAction "linux" asciiOnlyFold demoOS killBoth []).ret ≠ none ∧
      (KillAction "linux" asciiOnlyFold demoOS killBoth []).events = [] :=
  ⟨by decide,
    (KillAction_rejects_before_any_call "linux" asciiOnlyFold demoOS killBoth []
      (Or.inr (Or.inl (by decide)))).1,
    (KillAction_rejects_before_any_call "linux" asciiOnlyFold demoOS killBoth []
      (Or.inr (Or.inl (by decide)))).2.1⟩

/-- C2: in the by-name path of `killProcess`, for every list of processes the enumeration
returns, the name of every process is read once, in enumeration order, and termination is
requested exactly of the processes whose name could be read, is not empty and equals the
target, in that order, whatever earlier requests answered; the result depends on the
termination requests only. -/
theorem killProcess_byName_requests {σ : Type} (goos : String) (sf : Nat → Nat → Bool)
    (os : OS σ) (c : Context) (s s1 : σ) (ps : List Process) (hid : c.IsSet "id" = false)
    (hp : os.Processes s = (Res.ok ps, s1)) :
    (namesRead (killProcess goos sf os c s).events).map Prod.fst = ps ∧
      killed (killProcess goos sf os c s).events =
        matched goos sf c.String (killProcess goos sf os c s).events ∧
      (killProcess goos sf os c s).ret = byNameOutcome (killProcess goos sf os c s).events := by
  obtain ⟨hev, hret⟩ := killProcess_byName_ok goos sf os c s s1 ps hid hp
  obtain ⟨h1, _, _, _, _, _⟩ := killLoop_spec goos sf os c.String ps [] false s1
  refine ⟨?_, (killProcess_byName_run goos sf os c s hid).1, hret⟩
  rw [hev]
  simpa [namesRead] using h1

/-- Witness of C2: `kill --name bash` on the demonstration machine; the processes 10 and
11 are asked to terminate, and only they. -/
theorem killProcess_byName_requests_witness :
    killBash.IsSet "id" = false ∧
      (namesRead (killProcess "linux" asciiOnlyFold demoOS killBash []).events).map Prod.fst =
        [⟨1⟩, ⟨10⟩, ⟨11⟩, ⟨12⟩, ⟨13⟩, ⟨14⟩] ∧
      killed (killProcess "linux" asciiOnlyFold demoOS killBash []).events = [⟨10⟩, ⟨11⟩] :=
  ⟨by decide,
    (killProcess_byName_requests "linux" asciiOnlyFold demoOS killBash [] []
      [⟨1⟩, ⟨10⟩, ⟨11⟩, ⟨12⟩, ⟨13⟩, ⟨14⟩] (by decide) (by decide)).1,
    by decide⟩

/-- C3, where the code departs from it: for `--id 4294967297` the process looked up is
process 1, whatever the operating system answers, and on the demonstration machine process
1 is then asked to terminate; `--id 3000000000` becomes the negative pid -1294967296. -/
theorem killProcess_id_wraps :
    int32 4294967297 = 1 ∧ int32 3000000000 = -1294967296 ∧
      (∀ (σ : Type) (goos : String) (sf : Nat → Nat → Bool) (os : OS σ) (s : σ),
        ∃ r rest, (killProcess goos sf os killWrapped s).events = Event.NewProcess 1 r :: rest) ∧
      (killProcess "linux" asciiOnlyFold demoOS killWrapped []).events =
        [Event.NewProcess 1 (Res.ok ⟨1⟩),
          Event.Kill ⟨1⟩ (some (GoError.lib (lit "operation not permitted")))] := by
  refine ⟨by decide, by decide, ?_, by decide⟩
  intro σ goos sf os s
  have hid : killWrapped.IsSet "id" = true := by decide
  have h32 : int32 killWrapped.Uint = 1 := by decide
  obtain ⟨h1, h2⟩ := killProcess_byId goos sf os killWrapped s hid
  rw [h32] at h1 h2
  rcases hn : os.NewProcess 1 s with ⟨r, s1⟩
  cases r with
  | err e => exact ⟨_, _, by rw [h1 e s1 hn]⟩
  | ok proc =>
    rcases hk : os.Kill proc s1 with ⟨k, s2⟩
    exact ⟨_, _, by rw [h2 proc s1 k s2 hn hk]⟩

/-- C6: in the by-name path of `killProcess`, when at least one termination fails, the
result is one error whose message is the failure messages, in the order of the requests,
joined by newlines; when two processes were asked to terminate and exactly one request
failed, the message is that one failure message. -/
theorem killProcess_byName_failures {σ : Type} (goos : String) (sf : Nat → Nat → Bool)
    (os : OS σ) (c : Context) (s : σ) (hid : c.IsSet "id" = false)
    (hf : failures (killProcess goos sf os c s).events ≠ []) :
    (killProcess goos sf os c s).ret =
        some (errors.New (Join (failures (killProcess goos sf os c s).events) (lit "\n"))) ∧
      (∀ p q e, (terminations (killProcess goos sf os c s).events = [(p, some e), (q, none)] ∨
          terminations (killProcess goos sf os c s).events = [(p, none), (q, some e)]) →
        (killProcess goos sf os c s).ret = some (errors.New e.Error)) := by
  have h := (killProcess_byName_run goos sf os c s hid).2.2.2 hf
  refine ⟨h, ?_⟩
  intro p q e ht
  rw [h]
  rcases ht with ht | ht <;> simp [failures, ht, Join]

/-- Witness of C6: `kill --name bash` on the demonstration machine: process 10 terminates,
process 11 does not, and the error is the one message. -/
theorem killProcess_byName_failures_witness :
    killBash.IsSet "id" = false ∧
      failures (killProcess "linux" asciiOnlyFold demoOS killBash []).events ≠ [] ∧
      terminations (killProcess "linux" asciiOnlyFold demoOS killBash []).events =
        [(⟨10⟩, none), (⟨11⟩, some (GoError.lib (lit "operation not permitted")))] ∧
      (killProcess "linux" asciiOnlyFold demoOS killBash []).ret =
        some (errors.New (lit "operation not permitted")) :=
  ⟨by decide, by decide, by decide,
    (killProcess_byName_failures "linux" asciiOnlyFold demoOS killBash [] (by decide)
      (by decide)).2 ⟨10⟩ ⟨11⟩ (GoError.lib (lit "operation not permitted"))
      (Or.inr (by decide))⟩

/-- C7: when no process of the enumerated list has a name that could be read, is not
empty and equals the target, by-name `killProcess` fails with "process not found" and
requests no termination, and `KillAction` returns an error and prints nothing. -/
theorem killProcess_byName_not_found {σ : Type} (goos : String) (sf : Nat → Nat → Bool)
    (os : OS σ) (c : Context) (s s1 : σ) (ps : List Process) (hid : c.IsSet "id" = false)
    (hp : os.Processes s = (Res.ok ps, s1))
    (hm : matched goos sf c.String (killProcess goos sf os c s).events = []) :
    (killProcess goos sf os c s).ret = some (errors.New (lit "process not found")) ∧
      terminations (killProcess goos sf os c s).events = [] ∧
      (KillAction goos sf os c s).ret ≠ none ∧
      terminations (KillAction goos sf os c s).events = [] ∧
      printed (KillAction goos sf os c s).events = [] := by
  obtain ⟨hk, hpr, _, _⟩ := killProcess_byName_run goos sf os c s hid
  obtain ⟨_, hret⟩ := killProcess_byName_ok goos sf os c s s1 ps hid hp
  rw [hm] at hk
  have hret2 : (killProcess goos sf os c s).ret = some (errors.New (lit "process not found")) := by
    rw [hret]
    simp [byNameOutcome, hk]
  have ht : terminations (killProcess goos sf os c s).events = [] := by
    simpa [killed] using hk
  refine ⟨hret2, ht, ?_⟩
  by_cases hv : c.Args = [] ∧ c.String ≠ []
  · obtain ⟨h1, h2⟩ := KillAction_byName goos sf os c s hv.1 hid hv.2
    rw [h1, h2, hret2]
    simp only [reduceCtorEq, if_false, List.append_nil, ht, hpr]
    simp
  · have hinv : c.Args ≠ [] ∨ (c.IsSet "id" = true ∧ c.IsSet "name" = true) ∨
        (c.IsSet "id" = false ∧ c.String = []) := by
      by_cases ha : c.Args = []
      · right; right
        refine ⟨hid, ?_⟩
        by_contra hne
        exact hv ⟨ha, hne⟩
      · exact Or.inl ha
    obtain ⟨e, he⟩ := KillAction_invalid goos sf os c s hinv
    rw [he]
    simp [terminations, printed]

/-- Witness of C7: `kill --name zsh` on the demonstration machine. -/
theorem killProcess_byName_not_found_witness :
    killZsh.IsSet "id" = false ∧
      matched "linux" asciiOnlyFold killZsh.String
        (killProcess "linux" asciiOnlyFold demoOS killZsh []).events = [] ∧
      (killProcess "linux" asciiOnlyFold demoOS killZsh []).ret =
        some (errors.New (lit "process not found")) :=
  ⟨by decide, by decide,
    (killProcess_byName_not_found "linux" asciiOnlyFold demoOS killZsh [] []
      [⟨1⟩, ⟨10⟩, ⟨11⟩, ⟨12⟩, ⟨13⟩, ⟨14⟩] (by decide) (by decide) (by decide)).1⟩

/-- C10: when the enumeration of the partitions fails, `ActionVolumes` returns that same
error, makes no usage query and prints nothing. -/
theorem ActionVolumes_enumeration_error {σ : Type} (os : OS σ) (c : Context) (s s1 : σ)
    (e : GoError) (h : os.Partitions true s = (Res.err e, s1)) :
    (ActionVolumes os c s).ret = some e ∧
      (ActionVolumes os c s).events = [Event.Partitions true (Res.err e)] ∧
      usageQueries (ActionVolumes os c s).events = [] ∧
      printed (ActionVolumes os c s).events = [] := by
  have hrun : ActionVolumes os c s = ⟨some e, [Event.Partitions true (Res.err e)], s1⟩ := by
    simp [ActionVolumes, h]
  rw [hrun]
  simp [usageQueries, printed]

/-- Witness of C10: a machine whose partition enumeration is refused. -/
theorem ActionVolumes_enumeration_error_witness :
    (machine [] (Res.err (GoError.lib (lit "permission denied")))).Partitions true [] =
        (Res.err (GoError.lib (lit "permission denied")), []) ∧
      (ActionVolumes (machine [] (Res.err (GoError.lib (lit "permission denied"))))
        listVolumes []).ret = some (GoError.lib (lit "permission denied")) :=
  ⟨by decide,
    (ActionVolumes_enumeration_error (machine [] (Res.err (GoError.lib (lit "permission denied"))))
      listVolumes [] [] (GoError.lib (lit "permission denied")) (by decide)).1⟩

/-! ## Runs are what the operating system answered -/

theorem replay_append {σ : Type} (os : OS σ) (s : σ) (es fs : List Event) :
    replay os s (es ++ fs) = (replay os s es).bind (fun s1 => replay os s1 fs) := by
  induction es generalizing s with
  | nil => simp [replay]
  | cons e es ih =>
    cases e <;> simp only [List.cons_append, replay] <;> first
      | exact ih _
      | (split_ifs
         · exact ih _
         · rfl)

/-- The events of the loop of `killProcess` are the answers of the operating system, and
the state returned is the one it is left in. -/
theorem killLoop_replay {σ : Type} (goos : String) (sf : Nat → Nat → Bool) (os : OS σ)
    (target : GoString) (ps : List Process) (errs : List GoString) (found : Bool) (s : σ) :
    replay os s (killLoop goos sf os target ps errs found s).events =
      some (killLoop goos sf os target ps errs found s).os := by
  induction ps generalizing errs found s with
  | nil => simp [killLoop, replay]
  | cons p ps ih =>
    rcases hn : os.Name p s with ⟨r, s1⟩
    by_cases hm : nameMatches goos sf target r = true
    · rcases hk : os.Kill p s1 with ⟨k, s2⟩
      rw [killLoop_kill goos sf os target p ps errs found s s1 s2 r k hn hm hk]
      simp only [Run.after, List.cons_append, List.nil_append, replay, hn, hk, if_true]
      exact ih _ _ _
    · have hm2 : nameMatches goos sf target r = false := by simpa using hm
      rw [killLoop_skip goos sf os target p ps errs found s s1 r hn hm2]
      simp only [Run.after, List.singleton_append, replay, hn, if_true]
      exact ih _ _ _

/-- The events of the by-name path of `killProcess` are the answers of the operating
system: one enumeration, whose answer decides what follows. -/
theorem killProcess_byName_replay {σ : Type} (goos : String) (sf : Nat → Nat → Bool)
    (os : OS σ) (c : Context) (s : σ) (hid : c.IsSet "id" = false) :
    replay os s (killProcess goos sf os c s).events = some (killProcess goos sf os c s).os ∧
      lookups (killProcess goos sf os c s).events = [Event.Processes (os.Processes s).1] ∧
      (∀ ps, (os.Processes s).1 = Res.ok ps →
        (namesRead (killProcess goos sf os c s).events).map Prod.fst = ps) ∧
      (∀ e, (os.Processes s).1 = Res.err e → (killProcess goos sf os c s).ret = some e) := by
  rcases hp : os.Processes s with ⟨r, s1⟩
  cases r with
  | err e =>
    have hrun : killProcess goos sf os c s = ⟨some e, [Event.Processes (Res.err e)], s1⟩ := by
      simp [killProcess, hid, hp]
    rw [hrun]
    simp [replay, hp, lookups]
  | ok ps =>
    obtain ⟨h1, _, _, _, _, h6⟩ := killLoop_spec goos sf os c.String ps [] false s1
    have hev : (killProcess goos sf os c s).events =
        Event.Processes (Res.ok ps) :: (killLoop goos sf os c.String ps [] false s1).events :=
      (killProcess_byName_ok goos sf os c s s1 ps hid hp).1
    have hos : (killProcess goos sf os c s).os =
        (killLoop goos sf os c.String ps [] false s1).os := by
      simp [killProcess, hid, hp]
    rw [hev, hos]
    refine ⟨?_, ?_, ?_, ?_⟩
    · simp only [replay, hp, if_true]
      exact killLoop_replay goos sf os c.String ps [] false s1
    · have : lookups (Event.Processes (Res.ok ps) ::
          (killLoop goos sf os c.String ps [] false s1).events) =
          Event.Processes (Res.ok ps) ::
            lookups (killLoop goos sf os c.String ps [] false s1).events := by
        simp [lookups]
      rw [this, h6]
    · intro ps2 hps
      have hps2 : ps = ps2 := by simpa using hps
      subst hps2
      simpa [namesRead] using h1
    · intro e he
      simp at he

theorem lookups_append_println (es : List Event) (line : GoString) :
    lookups (es ++ [Event.Println line]) = lookups es := by
  simp [lookups]

theorem replay_append_println {σ : Type} (os : OS σ) (s : σ) (es : List Event)
    (line : GoString) : replay os s (es ++ [Event.Println line]) = replay os s es := by
  rw [replay_append]
  cases replay os s es <;> simp [replay]

/-- On a well-formed by-name invocation `KillAction` leaves the operating system in the
state `killProcess` leaves it in. -/
theorem KillAction_byName_os {σ : Type} (goos : String) (sf : Nat → Nat → Bool) (os : OS σ)
    (c : Context) (s : σ) (hargs : c.Args = []) (hid : c.IsSet "id" = false)
    (hname : c.String ≠ []) :
    (KillAction goos sf os c s).os = (killProcess goos sf os c s).os := by
  unfold KillAction
  simp only [hargs, hid, hname, List.length_nil, gt_iff_lt, lt_self_iff_false, if_false,
    Bool.false_and, Bool.false_eq_true, Bool.not_false, Bool.true_and, decide_eq_true_eq]
  rcases killProcess goos sf os c s with ⟨ret, es, s1⟩
  cases ret <;> simp

/-- C8: for a valid by-name invocation, `KillAction` enumerates the processes once and
reads from the operating system the name of every process enumerated; it succeeds if and
only if at least one process matched the target and every termination request succeeded,
the requests being exactly those on the matching processes; on success "Process killed
successfully." is printed exactly once, and on failure nothing is printed.  Every event of
the run is what the operating system answered. -/
theorem KillAction_byName_success {σ : Type} (goos : String) (sf : Nat → Nat → Bool)
    (os : OS σ) (c : Context) (s : σ) (hargs : c.Args = []) (hid : c.IsSet "id" = false)
    (hname : c.String ≠ []) :
    ((KillAction goos sf os c s).ret = none ↔
        matched goos sf c.String (KillAction goos sf os c s).events ≠ [] ∧
          ∀ pk ∈ terminations (KillAction goos sf os c s).events, pk.2 = none) ∧
      killed (KillAction goos sf os c s).events =
        matched goos sf c.String (KillAction goos sf os c s).events ∧
      ((KillAction goos sf os c s).ret = none →
        printed (KillAction goos sf os c s).events = [lit "Process killed successfully."]) ∧
      ((KillAction goos sf os c s).ret ≠ none →
        printed (KillAction goos sf os c s).events = []) ∧
      replay os s (KillAction goos sf os c s).events = some (KillAction goos sf os c s).os ∧
      lookups (KillAction goos sf os c s).events = [Event.Processes (os.Processes s).1] ∧
      (∀ ps, (os.Processes s).1 = Res.ok ps →
        (namesRead (KillAction goos sf os c s).events).map Prod.fst = ps) ∧
      (∀ e, (os.Processes s).1 = Res.err e → (KillAction goos sf os c s).ret = some e) := by
  obtain ⟨h1, h2⟩ := KillAction_byName goos sf os c s hargs hid hname
  have h3 := KillAction_byName_os goos sf os c s hargs hid hname
  obtain ⟨hk, hpr, hiff, _⟩ := killProcess_byName_run goos sf os c s hid
  obtain ⟨hrep, hlook, hnames, herr⟩ := killProcess_byName_replay goos sf os c s hid
  have hn : namesRead (KillAction goos sf os c s).events =
      namesRead (killProcess goos sf os c s).events := by
    rw [h2]
    split_ifs
    · exact (readings_append_println _ _).1
    · simp
  have ht : terminations (KillAction goos sf os c s).events =
      terminations (killProcess goos sf os c s).events := by
    rw [h2]
    split_ifs
    · exact (readings_append_println _ _).2.1
    · simp
  have hm : matched goos sf c.String (KillAction goos sf os c s).events =
      matched goos sf c.String (killProcess goos sf os c s).events := by
    simp only [matched, hn]
  have hkk : killed (KillAction goos sf os c s).events =
      killed (killProcess goos sf os c s).events := by
    simp only [killed, ht]
  have hfail : failures (killProcess goos sf os c s).events = [] ↔
      ∀ pk ∈ terminations (killProcess goos sf os c s).events, pk.2 = none := by
    simp only [failures, List.filterMap_eq_nil_iff, Option.map_eq_none']
  refine ⟨?_, ?_, ?_, ?_, ?_, ?_, ?_, ?_⟩
  · rw [h1, hm, ht, hiff, hk, hfail]
  · rw [hkk, hm, hk]
  · intro hret
    rw [h1] at hret
    rw [h2, hret]
    simp only [if_true, (readings_append_println _ _).2.2, hpr, List.nil_append]
  · intro hret
    rw [h1] at hret
    rw [h2]
    simp only [hret, if_false, List.append_nil, hpr]
  · rw [h3, h2]
    split_ifs
    · rw [replay_append_println]
      exact hrep
    · rw [List.append_nil]
      exact hrep
  · rw [h2]
    split_ifs
    · rw [lookups_append_println]
      exact hlook
    · rw [List.append_nil]
      exact hlook
  · intro ps hps
    rw [hn]
    exact hnames ps hps
  · intro e he
    rw [h1]
    exact herr e he

/-- Witness of C8 on the demonstration machine under "linux".  `kill --name Bash`: the six
processes are enumerated, only process 14 matches, it terminates, the command succeeds and
the message is printed once.  `kill --name bash`: processes 10 and 11 match, process 11
does not terminate, the command fails and nothing is printed. -/
theorem KillAction_byName_success_witness :
    (killCapital.Args = [] ∧ killCapital.IsSet "id" = false ∧ killCapital.String ≠ []) ∧
      (KillAction "linux" asciiOnlyFold demoOS killCapital []).ret = none ∧
      matched "linux" asciiOnlyFold killCapital.String
        (KillAction "linux" asciiOnlyFold demoOS killCapital []).events = [⟨14⟩] ∧
      killed (KillAction "linux" asciiOnlyFold demoOS killCapital []).events = [⟨14⟩] ∧
      printed (KillAction "linux" asciiOnlyFold demoOS killCapital []).events =
        [lit "Process killed successfully."] ∧
      (namesRead (KillAction "linux" asciiOnlyFold demoOS killCapital []).events).map Prod.fst =
        [⟨1⟩, ⟨10⟩, ⟨11⟩, ⟨12⟩, ⟨13⟩, ⟨14⟩] ∧
      replay demoOS [] (KillAction "linux" asciiOnlyFold demoOS killCapital []).events =
        some [14] ∧
      (KillAction "linux" asciiOnlyFold demoOS killBash []).ret =
        some (errors.New (lit "operation not permitted")) ∧
      killed (KillAction "linux" asciiOnlyFold demoOS killBash []).events = [⟨10⟩, ⟨11⟩] ∧
      printed (KillAction "linux" asciiOnlyFold demoOS killBash []).events = [] :=
  ⟨by decide, by decide, by decide, by decide,
    (KillAction_byName_success "linux" asciiOnlyFold demoOS killCapital [] (by decide)
      (by decide) (by decide)).2.2.1 (by decide),
    (KillAction_byName_success "linux" asciiOnlyFold demoOS killCapital [] (by decide)
      (by decide) (by decide)).2.2.2.2.2.2.1 _ (by decide),
    by decide, by decide, by decide,
    (KillAction_byName_success "linux" asciiOnlyFold demoOS killBash [] (by decide)
      (by decide) (by decide)).2.2.2.1 (by decide)⟩

/-! ## `ActionVolumes`: the listing -/

/-- A use percentage between 0 and 100 is finite. -/
theorem notFinite_of_percentInRange (bits : Nat) (h : percentInRange bits = true) :
    notFinite bits = false := by
  simp only [percentInRange, decide_eq_true_eq] at h
  simp only [notFinite, decide_eq_false_iff_not]
  omega

/-- Every record the loop of `ActionVolumes` builds carries a use percentage the operating
system returned. -/
theorem volumesLoop_percent {σ : Type} (os : OS σ) (P : Nat → Prop)
    (hdata : ∀ path t u t1, os.Usage path t = (Res.ok u, t1) → P u.UsedPercent)
    (stats : List PartitionStat) (vols : List Volume) (s : σ)
    (hv : ∀ v ∈ vols, P v.UsePercent) :
    ∀ v ∈ (volumesLoop os stats vols s).ret, P v.UsePercent := by
  induction stats generalizing vols s with
  | nil => simpa [volumesLoop] using hv
  | cons stat stats ih =>
    rcases hu : os.Usage stat.Mountpoint s with ⟨r, s1⟩
    cases r with
    | err e =>
      simp only [volumesLoop, hu, Run.after]
      exact ih vols s1 hv
    | ok usage =>
      simp only [volumesLoop, hu, Run.after]
      apply ih
      intro v hmem
      rcases List.mem_append.mp hmem with hmem | hmem
      · exact hv v hmem
      · have hveq : v = _ := List.mem_singleton.mp hmem
        rw [hveq]
        exact hdata _ _ _ _ hu

/-- The events of the loop of `ActionVolumes` are the answers of the operating system, and
the state returned is the one it is left in. -/
theorem volumesLoop_replay {σ : Type} (os : OS σ) (stats : List PartitionStat)
    (vols : List Volume) (s : σ) :
    replay os s (volumesLoop os stats vols s).events = some (volumesLoop os stats vols s).os := by
  induction stats generalizing vols s with
  | nil => simp [volumesLoop, replay]
  | cons stat stats ih =>
    rcases hu : os.Usage stat.Mountpoint s with ⟨r, s1⟩
    cases r with
    | err e =>
      simp only [volumesLoop, hu, Run.after, List.singleton_append, replay, if_true]
      exact ih _ _
    | ok usage =>
      simp only [volumesLoop, hu, Run.after, List.singleton_append, replay, if_true]
      exact ih _ _

/-- C9: for every list of N partitions returned by a successful partition enumeration,
with use percentages in the range 0-100 of the data model and a serialisation that, as
`encoding/json`, fails on a `float64` that is not finite only, `ActionVolumes` reports
success; it makes one usage query per partition, in the reported order, and prints, once,
the serialisation of exactly the records of the partitions whose query succeeded, one
each, in that order: N-1 records when the query fails for exactly one partition.  Every
event of the run is what the operating system answered. -/
theorem ActionVolumes_records {σ : Type} (os : OS σ) (c : Context) (s s1 : σ)
    (stats : List PartitionStat) (h : os.Partitions true s = (Res.ok stats, s1))
    (hdata : ∀ path t u t1, os.Usage path t = (Res.ok u, t1) →
      percentInRange u.UsedPercent = true)
    (hjson : ∀ vols : List Volume, (∀ v ∈ vols, notFinite v.UsePercent = false) →
      ∃ text, os.MarshalIndent vols = Res.ok text) :
    (ActionVolumes os c s).ret = none ∧
      replay os s (ActionVolumes os c s).events = some (ActionVolumes os c s).os ∧
      (usageQueries (ActionVolumes os c s).events).map Prod.fst =
        stats.map (fun st => st.Mountpoint) ∧
      (∃ text,
        os.MarshalIndent
            (volumesOf stats ((usageQueries (ActionVolumes os c s).events).map Prod.snd)) =
          Res.ok text ∧
        printed (ActionVolumes os c s).events = [text]) ∧
      (volumesOf stats ((usageQueries (ActionVolumes os c s).events).map Prod.snd)).length =
        (succeeded ((usageQueries (ActionVolumes os c s).events).map Prod.snd)).length ∧
      ((failed ((usageQueries (ActionVolumes os c s).events).map Prod.snd)).length = 1 →
        (volumesOf stats ((usageQueries (ActionVolumes os c s).events).map Prod.snd)).length =
          stats.length - 1) := by
  obtain ⟨h1, h2, h3, _⟩ := volumesLoop_spec os stats [] s1
  obtain ⟨hok, _⟩ := ActionVolumes_ok os c s s1 stats h
  have hfin : ∀ v ∈ (volumesLoop os stats [] s1).ret, notFinite v.UsePercent = false :=
    volumesLoop_percent os (fun b => notFinite b = false)
      (fun path t u t1 hu => notFinite_of_percentInRange _ (hdata path t u t1 hu))
      stats [] s1 (by simp)
  obtain ⟨text, htext⟩ := hjson _ hfin
  have hrun := hok text htext
  rw [hrun]
  simp only [List.nil_append] at h2
  have hq : usageQueries (Event.Partitions true (Res.ok stats) ::
      ((volumesLoop os stats [] s1).events ++ [Event.Println text])) =
      usageQueries (volumesLoop os stats [] s1).events :=
    (usageQueries_partitions _ _ _).2.1
  have hp : printed (Event.Partitions true (Res.ok stats) ::
      ((volumesLoop os stats [] s1).events ++ [Event.Println text])) = [text] := by
    rw [(usageQueries_partitions _ _ _).2.2.2, h3]
    rfl
  have hlen : ((usageQueries (volumesLoop os stats [] s1).events).map Prod.snd).length =
      stats.length := by
    have := congrArg List.length h1
    simpa using this
  have hvl := volumesOf_length stats _ hlen
  have hsum := succeeded_failed_length
    ((usageQueries (volumesLoop os stats [] s1).events).map Prod.snd)
  simp only [hq, hp]
  refine ⟨trivial, ?_, h1, ⟨text, ?_, rfl⟩, hvl, ?_⟩
  · simp only [replay, h, if_true]
    rw [replay_append_println]
    exact volumesLoop_replay os stats [] s1
  · rw [← h2]
    exact htext
  · intro hone
    omega

/-- The usage records of the demonstration machine carry use percentages between 0 and
100. -/
theorem demoOS_usage_in_range (path : GoString) (t : List Int) (u : UsageStat) (t1 : List Int)
    (h : demoOS.Usage path t = (Res.ok u, t1)) : percentInRange u.UsedPercent = true := by
  simp only [demoOS, machine] at h
  split at h
  · rename_i m hm
    have hmem : m ∈ demoMounts := List.mem_of_find?_eq_some hm
    have hu : m.usage = Res.ok u := (Prod.mk.inj h).1
    simp only [demoMounts, List.mem_cons, List.mem_singleton, List.not_mem_nil, or_false] at hmem
    rcases hmem with rfl | rfl | rfl
    · simp only [Res.ok.injEq] at hu
      rw [← hu]
      decide
    · simp at hu
    · simp only [Res.ok.injEq] at hu
      rw [← hu]
      decide
  · simp at h

/-- The serialisation of the demonstration machine fails on a use percentage that is not
finite only. -/
theorem machine_json_total (table : List Entry) (mounts : Res (List Mount))
    (vols : List Volume) (hfin : ∀ v ∈ vols, notFinite v.UsePercent = false) :
    ∃ text, (machine table mounts).MarshalIndent vols = Res.ok text := by
  have hany : vols.any (fun v => notFinite v.UsePercent) = false := by
    rw [List.any_eq_false]
    intro v hv
    simp [hfin v hv]
  refine ⟨Join (vols.map (fun v => v.Name)) (lit "\n"), ?_⟩
  simp only [machine, hany, Bool.false_eq_true, if_false]

/-- Witness of C9: three partitions, the usage query of the second fails, the two records
of the others are printed, in order, and no error is returned. -/
theorem ActionVolumes_records_witness :
    demoOS.Partitions true [] = (Res.ok (demoMounts.map (fun m => m.stat)), []) ∧
      (failed ((usageQueries (ActionVolumes demoOS listVolumes []).events).map Prod.snd)).length
        = 1 ∧
      (ActionVolumes demoOS listVolumes []).ret = none ∧
      (volumesOf (demoMounts.map (fun m => m.stat))
        ((usageQueries (ActionVolumes demoOS listVolumes []).events).map Prod.snd)).length = 2 ∧
      printed (ActionVolumes demoOS listVolumes []).events = [lit "/dev/sda1\n/dev/sdb1"] :=
  ⟨by decide, by decide,
    (ActionVolumes_records demoOS listVolumes [] [] (demoMounts.map (fun m => m.stat))
      (by decide) demoOS_usage_in_range (machine_json_total demoTable (Res.ok demoMounts))).1,
    (ActionVolumes_records demoOS listVolumes [] [] (demoMounts.map (fun m => m.stat))
      (by decide) demoOS_usage_in_range
      (machine_json_total demoTable (Res.ok demoMounts))).2.2.2.2.2 (by decide),
    by decide⟩

end CLILinux
